import Mathlib

set_option maxHeartbeats 1000000

namespace N8n

/-- Shallow embedding of a serde JSON value (serde_json::Value). Numbers are kept as
their textual representation, since no operation of the verified core inspects or
computes with numeric payloads. -/
inductive Json where
  | null : Json
  | bool (b : Bool) : Json
  | num (lit : String) : Json
  | str (s : String) : Json
  | arr (items : List Json) : Json
  | obj (fields : List (String × Json)) : Json

/-- Embedding of ConnectionEndpoint from src/models/connection.rs: a single connection
endpoint (target of a connection). -/
structure ConnectionEndpoint where
  node : String
  connection_type : String
  index : Nat
deriving DecidableEq

/-- Value of one source key of the nested connections map: port-type name to ordered
fan-out slots. The Rust HashMap is embedded as an association list; the HashMap key
uniqueness invariant appears as NodupKeys hypotheses where it matters. -/
abbrev PortMap := List (String × List (List ConnectionEndpoint))

/-- Embedding of ConnectionsMap from src/models/connection.rs: n8n native nested
connection format, keyed by source node name. -/
abbrev ConnectionsMap := List (String × PortMap)

/-- Embedding of Connection from src/models/connection.rs: flattened connection for
display and manipulation. -/
structure Connection where
  source_node : String
  source_output : Nat
  source_type : String
  target_node : String
  target_input : Nat
  target_type : String
deriving DecidableEq

/-- Connection record built for one endpoint during the nested traversal of
Connection::from_connections_map (the struct literal pushed in the inner loop). -/
def mkConn (src pt : String) (i : Nat) (t : ConnectionEndpoint) : Connection :=
  { source_node := src, source_output := i, source_type := pt,
    target_node := t.node, target_input := t.index, target_type := t.connection_type }

/-- Enumeration of the fan-out slots of one port type, starting at slot index k
(the enumerate loop of Connection::from_connections_map). -/
def flattenSlots (src pt : String) : Nat → List (List ConnectionEndpoint) → List Connection
  | _, [] => []
  | k, ts :: rest => ts.map (mkConn src pt k) ++ flattenSlots src pt (k + 1) rest

/-- Enumeration of all port types of one source node (middle loop of
Connection::from_connections_map). -/
def flattenPortMap (src : String) : PortMap → List Connection
  | [] => []
  | (pt, slots) :: rest => flattenSlots src pt 0 slots ++ flattenPortMap src rest

/-- Embedding of Connection::from_connections_map: convert the nested format to a
flat list (outer loop over source nodes). -/
def Connection.from_connections_map : ConnectionsMap → List Connection
  | [] => []
  | (src, pm) :: rest => flattenPortMap src pm ++ Connection.from_connections_map rest

/-- Endpoint record built from a flat connection by Connection::to_connections_map
and Connection::add_to_map. -/
def endpointOf (c : Connection) : ConnectionEndpoint :=
  { node := c.target_node, connection_type := c.target_type, index := c.target_input }

/-- Embedding of the pad-then-push step of Connection::to_connections_map and
Connection::add_to_map: grow the fan-out list with empty slots until slot i exists,
then append the endpoint to slot i. -/
def pushEndpoint : Nat → List (List ConnectionEndpoint) → ConnectionEndpoint → List (List ConnectionEndpoint)
  | 0, [], e => [[e]]
  | 0, ts :: rest, e => (ts ++ [e]) :: rest
  | i + 1, [], e => [] :: pushEndpoint i [] e
  | i + 1, ts :: rest, e => ts :: pushEndpoint i rest e

/-- Embedding of the HashMap entry-or-default step on the port-type level of
Connection::add_to_map: locate or create the port-type entry, then push the
endpoint into slot i of its fan-out list. -/
def addToPortMap (pt : String) (i : Nat) (e : ConnectionEndpoint) : PortMap → PortMap
  | [] => [(pt, pushEndpoint i [] e)]
  | (pt2, slots) :: rest =>
      if pt2 = pt then (pt2, pushEndpoint i slots e) :: rest
      else (pt2, slots) :: addToPortMap pt i e rest

/-- Embedding of Connection::add_to_map: add a single connection to an existing map
(locate or create the source node entry, then insert on the port-type level). -/
def Connection.add_to_map : ConnectionsMap → Connection → ConnectionsMap
  | [], c => [(c.source_node, addToPortMap c.source_type c.source_output (endpointOf c) [])]
  | (src, pm) :: rest, c =>
      if src = c.source_node then
        (src, addToPortMap c.source_type c.source_output (endpointOf c) pm) :: rest
      else (src, pm) :: Connection.add_to_map rest c

/-- Embedding of Connection::to_connections_map: convert a flat list back to the
nested format by inserting every connection in order. -/
def Connection.to_connections_map (connections : List Connection) : ConnectionsMap :=
  connections.foldl Connection.add_to_map []

lemma mkConn_endpointOf (c : Connection) :
    mkConn c.source_node c.source_type c.source_output (endpointOf c) = c := by
  cases c
  rfl

lemma flattenSlots_push_perm (src pt : String) (e : ConnectionEndpoint) (i : Nat) :
    ∀ (k : Nat) (slots : List (List ConnectionEndpoint)),
      (flattenSlots src pt k (pushEndpoint i slots e)).Perm
        (mkConn src pt (k + i) e :: flattenSlots src pt k slots) := by
  induction i with
  | zero =>
    intro k slots
    match slots with
    | [] =>
      simp [pushEndpoint, flattenSlots]
    | ts :: rest =>
      simp only [pushEndpoint, flattenSlots, List.map_append, List.map_cons, List.map_nil,
        Nat.add_zero, List.append_assoc, List.singleton_append]
      exact List.perm_middle
  | succ i ih =>
    intro k slots
    match slots with
    | [] =>
      have hk : k + 1 + i = k + (i + 1) := by omega
      have h := ih (k + 1) []
      rw [hk] at h
      simpa [pushEndpoint, flattenSlots] using h
    | ts :: rest =>
      have hk : k + 1 + i = k + (i + 1) := by omega
      have h := ih (k + 1) rest
      rw [hk] at h
      simp only [pushEndpoint, flattenSlots]
      exact (h.append_left (ts.map (mkConn src pt k))).trans List.perm_middle

lemma flattenPortMap_add_perm (src pt : String) (i : Nat) (e : ConnectionEndpoint) :
    ∀ pm : PortMap,
      (flattenPortMap src (addToPortMap pt i e pm)).Perm
        (mkConn src pt i e :: flattenPortMap src pm)
  | [] => by
      have h := flattenSlots_push_perm src pt e i 0 []
      rw [Nat.zero_add] at h
      simp only [flattenSlots] at h
      simp only [addToPortMap, flattenPortMap, List.append_nil]
      exact h
  | (pt2, slots) :: rest => by
      by_cases hpt : pt2 = pt
      · subst hpt
        simp only [addToPortMap, if_pos rfl, flattenPortMap]
        have h := flattenSlots_push_perm src pt2 e i 0 slots
        rw [Nat.zero_add] at h
        exact h.append_right (flattenPortMap src rest)
      · simp only [addToPortMap, if_neg hpt, flattenPortMap]
        have h := flattenPortMap_add_perm src pt i e rest
        exact (h.append_left (flattenSlots src pt2 0 slots)).trans List.perm_middle

lemma from_add_to_map_perm (c : Connection) :
    ∀ m : ConnectionsMap,
      (Connection.from_connections_map (Connection.add_to_map m c)).Perm
        (c :: Connection.from_connections_map m)
  | [] => by
      have h := flattenPortMap_add_perm c.source_node c.source_type c.source_output
        (endpointOf c) []
      rw [mkConn_endpointOf] at h
      simp only [flattenPortMap] at h
      simp only [Connection.add_to_map, Connection.from_connections_map, List.append_nil]
      exact h
  | (src, pm) :: rest => by
      by_cases hsrc : src = c.source_node
      · subst hsrc
        simp only [Connection.add_to_map, if_pos rfl, Connection.from_connections_map]
        have h := flattenPortMap_add_perm c.source_node c.source_type c.source_output
          (endpointOf c) pm
        rw [mkConn_endpointOf] at h
        exact h.append_right (Connection.from_connections_map rest)
      · simp only [Connection.add_to_map, if_neg hsrc, Connection.from_connections_map]
        have h := from_add_to_map_perm c rest
        exact (h.append_left (flattenPortMap src pm)).trans List.perm_middle

lemma from_foldl_perm (E : List Connection) :
    ∀ m : ConnectionsMap,
      (Connection.from_connections_map (E.foldl Connection.add_to_map m)).Perm
        (E ++ Connection.from_connections_map m) := by
  induction E with
  | nil =>
    intro m
    simp
  | cons c E ih =>
    intro m
    have h1 := ih (Connection.add_to_map m c)
    have h2 := (from_add_to_map_perm c m).append_left E
    exact (h1.trans h2).trans List.perm_middle

/-- C1: for every list of flat edges E, converting E to the nested adjacency map with
to_connections_map and flattening it back with from_connections_map yields the same
multiset of edges as E. -/
theorem to_from_connections_roundtrip (E : List Connection) :
    (Connection.from_connections_map (Connection.to_connections_map E) : Multiset Connection)
      = (E : Multiset Connection) := by
  apply Multiset.coe_eq_coe.mpr
  have h := from_foldl_perm E []
  simpa [Connection.from_connections_map, Connection.to_connections_map] using h

/-- First-match lookup in an association list (the embedding of HashMap get). -/
def lookupKey {β : Type} (k : String) : List (String × β) → Option β
  | [] => none
  | (k2, v) :: rest => if k2 = k then some v else lookupKey k rest

/-- Key membership in an association list (the embedding of HashMap contains_key). -/
def containsKey {β : Type} (k : String) (m : List (String × β)) : Bool :=
  (lookupKey k m).isSome

/-- Outer keys of an association list, in order. -/
def keysOf {β : Type} (m : List (String × β)) : List String :=
  m.map Prod.fst

/-- Key uniqueness invariant of the Rust HashMap, carried explicitly by the
association-list embedding. -/
abbrev NodupKeys {β : Type} (m : List (String × β)) : Prop :=
  (keysOf m).Nodup

/-- Embedding of Connection::remove_from_map: remove connections from source to
target in a map. The Rust code mutates only the entry found by get_mut(from_node)
(the first matching key), retains on each fan-out slot the endpoints whose target
differs from to_node, and sets the removed flag when a slot shrank. -/
def Connection.remove_from_map : ConnectionsMap → String → String → Bool × ConnectionsMap
  | [], _, _ => (false, [])
  | (src, pm) :: rest, from_node, to_node =>
      if src = from_node then
        (pm.any (fun p => p.2.any (fun ts =>
            decide ((ts.filter (fun t => !(t.node == to_node))).length < ts.length))),
         (src, pm.map (fun p => (p.1, p.2.map (fun ts =>
            ts.filter (fun t => !(t.node == to_node)))))) :: rest)
      else
        ((Connection.remove_from_map rest from_node to_node).1,
         (src, pm) :: (Connection.remove_from_map rest from_node to_node).2)

/-- Value-level effect of removeEdges as the spec describes it: delete exactly the
endpoints whose target node name equals toName, preserving port-type keys and the
number and order of fan-out slots (now-empty slots remain). -/
def removeEdgesSpecValue (to_node : String) (pm : PortMap) : PortMap :=
  pm.map (fun p => (p.1, p.2.map (fun ts => ts.filter (fun t => !(t.node == to_node)))))

/-- C6: remove_from_map deletes exactly the endpoints under fromName whose target
name equals toName, returns true iff at least one endpoint was deleted, and leaves
the shape of the nested structure otherwise unchanged: outer keys (in order) are
preserved, entries under any other key are untouched, and the entry under fromName
keeps its port-type keys and its fan-out slots (filtered pointwise, empties kept). -/
theorem remove_from_map_spec (m : ConnectionsMap) (from_node to_node other : String)
    (hother : other ≠ from_node) :
    keysOf (Connection.remove_from_map m from_node to_node).2 = keysOf m ∧
    lookupKey other (Connection.remove_from_map m from_node to_node).2 = lookupKey other m ∧
    lookupKey from_node (Connection.remove_from_map m from_node to_node).2
      = (lookupKey from_node m).map (removeEdgesSpecValue to_node) ∧
    ((Connection.remove_from_map m from_node to_node).1 = true ↔
      ∃ pm, lookupKey from_node m = some pm ∧
        ∃ p ∈ pm, ∃ ts ∈ p.2, ∃ t ∈ ts, t.node = to_node) := by
  induction m with
  | nil =>
    refine ⟨rfl, rfl, rfl, ?_⟩
    simp [Connection.remove_from_map, lookupKey]
  | cons hd rest ih =>
    obtain ⟨src, pm⟩ := hd
    by_cases hsrc : src = from_node
    · subst hsrc
      refine ⟨?_, ?_, ?_, ?_⟩
      · simp [Connection.remove_from_map, keysOf]
      · have hno : ¬ src = other := fun h => hother h.symm
        simp [Connection.remove_from_map, lookupKey, hno]
      · simp [Connection.remove_from_map, lookupKey, removeEdgesSpecValue]
      · simp only [Connection.remove_from_map, if_pos rfl, lookupKey]
        simp [List.any_eq_true, List.length_filter_lt_length_iff_exists]
    · refine ⟨?_, ?_, ?_, ?_⟩
      · simp only [Connection.remove_from_map, if_neg hsrc, keysOf, List.map_cons]
        have h1 := ih.1
        simp only [keysOf] at h1
        rw [h1]
      · by_cases hos : src = other
        · subst hos
          simp [Connection.remove_from_map, if_neg hother, lookupKey]
        · simp only [Connection.remove_from_map, if_neg hsrc, lookupKey, if_neg hos]
          exact ih.2.1
      · simp only [Connection.remove_from_map, if_neg hsrc, lookupKey, if_neg hsrc]
        exact ih.2.2.1
      · simp only [Connection.remove_from_map, if_neg hsrc, lookupKey, if_neg hsrc]
        exact ih.2.2.2

/-- Concrete map used by the witnesses for the remove_from_map specification. -/
def cmW : ConnectionsMap :=
  [("A", [("main", [[{ node := "B", connection_type := "main", index := 0 },
                     { node := "D", connection_type := "main", index := 0 }], []])]),
   ("C", [("main", [[{ node := "B", connection_type := "main", index := 1 }]])])]

/-- Witness for C6: the specification instantiated at a concrete map. -/
theorem remove_from_map_spec_witness :
    keysOf (Connection.remove_from_map cmW "A" "B").2 = keysOf cmW ∧
    lookupKey "C" (Connection.remove_from_map cmW "A" "B").2 = lookupKey "C" cmW ∧
    lookupKey "A" (Connection.remove_from_map cmW "A" "B").2
      = (lookupKey "A" cmW).map (removeEdgesSpecValue "B") ∧
    ((Connection.remove_from_map cmW "A" "B").1 = true ↔
      ∃ pm, lookupKey "A" cmW = some pm ∧
        ∃ p ∈ pm, ∃ ts ∈ p.2, ∃ t ∈ ts, t.node = "B") :=
  remove_from_map_spec cmW "A" "B" "C" (by decide)

/-- Embedding of Position from src/models/node.rs: canvas position of a node. -/
structure Position where
  x : Int
  y : Int
deriving DecidableEq

/-- Embedding of Node from src/models/node.rs. The f64 field typeVersion is
modelled by its textual literal, since no operation of the verified core computes
with it. -/
structure Node where
  id : String
  name : String
  node_type : String
  type_version : String
  position : Position
  parameters : Json
  credentials : Option Json
  disabled : Bool
  notes : Option String
  continue_on_fail : Bool
  retry_on_fail : Bool
  max_tries : Option Nat
  wait_between_tries : Option Nat
  always_output_data : Bool
  execute_once : Bool
  webhook_id : Option String
  extra : Json

/-- Character-level prefix test feeding the substring predicate. -/
def isPrefixCh : List Char → List Char → Bool
  | [], _ => true
  | _ :: _, [] => false
  | a :: as, b :: bs => a == b && isPrefixCh as bs

/-- Character-level substring test: embedding of Rust str::contains with a string
pattern (the patterns used by the source are ASCII, so byte positions and
character positions coincide). -/
def containsSub (needle : List Char) : List Char → Bool
  | [] => needle.isEmpty
  | b :: bs => isPrefixCh needle (b :: bs) || containsSub needle bs

/-- Substring test on strings. -/
def strContains (hay needle : String) : Bool :=
  containsSub needle.data hay.data

/-- Embedding of Node::is_trigger from src/models/node.rs: literal substring tests
for trigger and Trigger plus the two designated type names. -/
def Node.is_trigger (n : Node) : Bool :=
  strContains n.node_type "trigger" || strContains n.node_type "Trigger"
    || n.node_type == "n8n-nodes-base.start" || n.node_type == "n8n-nodes-base.manualTrigger"

lemma isPrefixCh_iff : ∀ (needle hay : List Char),
    isPrefixCh needle hay = true ↔ ∃ t, hay = needle ++ t
  | [], hay => by
      simp only [isPrefixCh, List.nil_append, true_iff]
      exact ⟨hay, rfl⟩
  | _ :: _, [] => by
      simp [isPrefixCh]
  | a :: as, b :: bs => by
      simp only [isPrefixCh, Bool.and_eq_true, beq_iff_eq, List.cons_append, List.cons.injEq]
      rw [isPrefixCh_iff as bs]
      constructor
      · rintro ⟨hab, t, ht⟩
        exact ⟨t, hab.symm, ht⟩
      · rintro ⟨t, hab, ht⟩
        exact ⟨hab.symm, t, ht⟩

lemma containsSub_iff (needle : List Char) : ∀ hay : List Char,
    containsSub needle hay = true ↔ ∃ l1 l2, hay = l1 ++ needle ++ l2
  | [] => by
      simp only [containsSub, List.isEmpty_iff]
      constructor
      · intro h
        exact ⟨[], [], by simp [h]⟩
      · rintro ⟨l1, l2, h⟩
        rcases List.append_eq_nil.mp (List.append_eq_nil.mp h.symm).1 with ⟨-, h2⟩
        exact h2
  | b :: bs => by
      simp only [containsSub, Bool.or_eq_true]
      rw [isPrefixCh_iff needle (b :: bs), containsSub_iff needle bs]
      constructor
      · rintro (⟨t, ht⟩ | ⟨l1, l2, h⟩)
        · exact ⟨[], t, by simp [ht]⟩
        · exact ⟨b :: l1, l2, by simp [h]⟩
      · rintro ⟨l1, l2, h⟩
        match l1 with
        | [] =>
          exact Or.inl ⟨l2, by simpa using h⟩
        | c :: l1 =>
          simp only [List.cons_append, List.cons.injEq] at h
          exact Or.inr ⟨l1, l2, h.2⟩

/-- Lowercasing of a string; used only to state the case-insensitive reading of
the trigger claim. -/
def strToLower (s : String) : String :=
  ⟨s.data.map Char.toLower⟩

/-- Case-insensitive substring predicate: the "contains the substring trigger
case-insensitively" reading of the claim. -/
def containsCI (hay needle : String) : Bool :=
  containsSub (strToLower needle).data (strToLower hay).data

/-- Node whose type contains TRIGGER only in upper case, separating exact-case
substring matching from case-insensitive matching. -/
def nodeCaps : Node :=
  { id := "1", name := "T", node_type := "n8n-nodes-base.XTRIGGER", type_version := "1",
    position := { x := 0, y := 0 }, parameters := Json.obj [], credentials := none,
    disabled := false, notes := none, continue_on_fail := false, retry_on_fail := false,
    max_tries := none, wait_between_tries := none, always_output_data := false,
    execute_once := false, webhook_id := none, extra := Json.obj [] }

/-- Counterexample for C5 as stated: is_trigger is not the case-insensitive
substring test. On the type n8n-nodes-base.XTRIGGER the case-insensitive reading
classifies the node as a trigger, the code does not. -/
theorem is_trigger_cex :
    ¬ (∀ n : Node, n.is_trigger =
        (containsCI n.node_type "trigger" || n.node_type == "n8n-nodes-base.start"
          || n.node_type == "n8n-nodes-base.manualTrigger")) := by
  intro h
  exact absurd (h nodeCaps) (by decide)

/-- C5 (amended): is_trigger returns true iff the node type contains the literal
substring trigger or Trigger (exact case), or equals one of the designated
manual or start types; the match is not fully case-insensitive. -/
theorem is_trigger_characterization (n : Node) :
    n.is_trigger = true ↔
      (∃ l1 l2, n.node_type.data = l1 ++ "trigger".data ++ l2) ∨
      (∃ l1 l2, n.node_type.data = l1 ++ "Trigger".data ++ l2) ∨
      n.node_type = "n8n-nodes-base.start" ∨
      n.node_type = "n8n-nodes-base.manualTrigger" := by
  simp only [Node.is_trigger, strContains, Bool.or_eq_true, beq_iff_eq, containsSub_iff]
  rw [or_assoc, or_assoc]

/-- Embedding of WorkflowTag from src/models/workflow.rs. -/
structure WorkflowTag where
  id : String
  name : String

/-- Embedding of WorkflowSettings from src/models/workflow.rs: optional recognized
fields plus a catch-all for extra settings. -/
structure WorkflowSettings where
  save_execution_progress : Option Bool
  save_data_error_execution : Option String
  save_data_success_execution : Option String
  save_manual_executions : Option Bool
  timezone : Option String
  error_workflow : Option String
  execution_timeout : Option Nat
  execution_order : Option String
  extra : Json

/-- Embedding of TypedWorkflow from src/models/workflow.rs: full workflow with
typed nodes and connections. -/
structure TypedWorkflow where
  id : Option String
  name : String
  active : Bool
  nodes : List Node
  connections : ConnectionsMap
  settings : WorkflowSettings
  tags : List WorkflowTag
  version_id : Option String

/-- Embedding of TypedWorkflow::find_node: find a node by id or name. The source
is a single find pass returning the first node whose id or name equals the
argument. -/
def TypedWorkflow.find_node (w : TypedWorkflow) (node_id : String) : Option Node :=
  w.nodes.find? (fun n => n.id == node_id || n.name == node_id)

/-- Embedding of TypedWorkflow::connections_flat. -/
def TypedWorkflow.connections_flat (w : TypedWorkflow) : List Connection :=
  Connection.from_connections_map w.connections

/-- Removal of the first entry with the given key, dropping its value: embedding
of HashMap remove with the returned value ignored. -/
def removeKeyEntry {β : Type} (k : String) : List (String × β) → List (String × β)
  | [] => []
  | (k2, v) :: rest => if k2 = k then rest else (k2, v) :: removeKeyEntry k rest

/-- Removal of the first entry with the given key, returning its value and the
rest: embedding of HashMap remove when the value is used. -/
def removeKey {β : Type} (k : String) : List (String × β) → Option (β × List (String × β))
  | [] => none
  | (k2, v) :: rest =>
      if k2 = k then some (v, rest)
      else (removeKey k rest).map (fun q => (q.1, (k2, v) :: q.2))

/-- Insert-or-replace of a key: embedding of HashMap insert. -/
def insertKey {β : Type} (k : String) (v : β) : List (String × β) → List (String × β)
  | [] => [(k, v)]
  | (k2, v2) :: rest => if k2 = k then (k, v) :: rest else (k2, v2) :: insertKey k v rest

/-- Extraction of the first element satisfying p together with the remaining
list: embedding of the position-then-remove step on the node Vec. -/
def extractFirst {α : Type} (p : α → Bool) : List α → Option (α × List α)
  | [] => none
  | a :: rest =>
      if p a then some (a, rest)
      else (extractFirst p rest).map (fun q => (q.1, a :: q.2))

/-- Incoming-connection cleanup of TypedWorkflow::remove_node: drop every
endpoint whose target is the removed node's name, keeping the nested shape. -/
def dropTargets (name : String) (m : ConnectionsMap) : ConnectionsMap :=
  m.map (fun e => (e.1, e.2.map (fun p => (p.1, p.2.map (fun ts =>
    ts.filter (fun t => !(t.node == name)))))))

/-- Embedding of TypedWorkflow::remove_node: resolve the node, remove its
outgoing entry, drop incoming endpoints targeting its name, then remove the node
from the list and return it. A lookup miss returns none with the state reached so
far (the second resolution uses the same predicate on the untouched list, so it
cannot miss when the first succeeded). -/
def TypedWorkflow.remove_node (w : TypedWorkflow) (node_id : String) :
    Option Node × TypedWorkflow :=
  match w.find_node node_id with
  | none => (none, w)
  | some n =>
      let conns := dropTargets n.name (removeKeyEntry n.name w.connections)
      match extractFirst (fun nd => nd.id == node_id || nd.name == node_id) w.nodes with
      | none => (none, { w with connections := conns })
      | some q => (some q.1, { w with connections := conns, nodes := q.2 })

/-- Endpoint rewrite step of TypedWorkflow::rename_node_in_connections. -/
def renameEndpoint (old_name new_name : String) (t : ConnectionEndpoint) : ConnectionEndpoint :=
  if t.node = old_name then { t with node := new_name } else t

/-- Target rewrite pass of TypedWorkflow::rename_node_in_connections over every
endpoint of the map. -/
def renameTargets (old_name new_name : String) (m : ConnectionsMap) : ConnectionsMap :=
  m.map (fun e => (e.1, e.2.map (fun p => (p.1, p.2.map (fun ts =>
    ts.map (renameEndpoint old_name new_name))))))

/-- Embedding of TypedWorkflow::rename_node_in_connections on the connections
value: re-key the outer entry from the old to the new name when present, then
rewrite every endpoint whose target equals the old name. -/
def renameNodeInConnectionsMap (m : ConnectionsMap) (old_name new_name : String) :
    ConnectionsMap :=
  renameTargets old_name new_name
    (match removeKey old_name m with
     | none => m
     | some q => insertKey new_name q.1 q.2)

/-- Embedding of TypedWorkflow::rename_node_in_connections. -/
def TypedWorkflow.rename_node_in_connections (w : TypedWorkflow) (old_name new_name : String) :
    TypedWorkflow :=
  { w with connections := renameNodeInConnectionsMap w.connections old_name new_name }

lemma find?_decomp {α : Type} (p : α → Bool) : ∀ (l : List α) (a : α),
    l.find? p = some a ↔
      ∃ l1 l2, l = l1 ++ a :: l2 ∧ p a = true ∧ ∀ b ∈ l1, p b = false
  | [], a => by
      constructor
      · intro h
        simp at h
      · rintro ⟨l1, l2, h, -⟩
        cases l1 <;> simp_all
  | c :: rest, a => by
      by_cases hc : p c
      · rw [List.find?_cons_of_pos _ hc]
        constructor
        · rintro ⟨rfl⟩
          exact ⟨[], rest, rfl, hc, by simp⟩
        · rintro ⟨l1, l2, hl, hp, hall⟩
          match l1, hl with
          | [], hl =>
            simp only [List.nil_append, List.cons.injEq] at hl
            rw [hl.1]
          | b :: l1, hl =>
            simp only [List.cons_append, List.cons.injEq] at hl
            have := hall c (by rw [hl.1]; exact List.mem_cons_self b l1)
            rw [this] at hc
            cases hc
      · rw [List.find?_cons_of_neg _ hc]
        rw [find?_decomp p rest a]
        constructor
        · rintro ⟨l1, l2, hl, hp, hall⟩
          refine ⟨c :: l1, l2, by rw [hl, List.cons_append], hp, ?_⟩
          intro b hb
          rcases List.mem_cons.mp hb with hb | hb
          · rw [hb]
            exact Bool.eq_false_iff.mpr hc
          · exact hall b hb
        · rintro ⟨l1, l2, hl, hp, hall⟩
          match l1, hl with
          | [], hl =>
            simp only [List.nil_append, List.cons.injEq] at hl
            rw [hl.1] at hc
            exact absurd hp hc
          | b :: l1, hl =>
            simp only [List.cons_append, List.cons.injEq] at hl
            exact ⟨l1, l2, hl.2, hp, fun b2 hb2 => hall b2 (List.mem_cons_of_mem b hb2)⟩

/-- C4 (amended): find_node returns the first node in list order whose id or name
equals the lookup string; an id match on a later node does not take priority over
a name match on an earlier node. -/
theorem find_node_characterization (w : TypedWorkflow) (s : String) (n : Node) :
    w.find_node s = some n ↔
      ∃ l1 l2, w.nodes = l1 ++ n :: l2 ∧ (n.id = s ∨ n.name = s) ∧
        ∀ m2 ∈ l1, m2.id ≠ s ∧ m2.name ≠ s := by
  rw [TypedWorkflow.find_node, find?_decomp]
  simp only [Bool.or_eq_true, beq_iff_eq, Bool.or_eq_false_iff, beq_eq_false_iff_ne]

/-- Default settings value used by concrete workflows in witnesses and
counterexamples. -/
def settingsW : WorkflowSettings :=
  { save_execution_progress := none, save_data_error_execution := none,
    save_data_success_execution := none, save_manual_executions := none,
    timezone := none, error_workflow := none, execution_timeout := none,
    execution_order := none, extra := Json.obj [] }

/-- Concrete node builder used by witnesses and counterexamples. -/
def mkNode (i nm ty : String) : Node :=
  { id := i, name := nm, node_type := ty, type_version := "1",
    position := { x := 0, y := 0 }, parameters := Json.obj [], credentials := none,
    disabled := false, notes := none, continue_on_fail := false, retry_on_fail := false,
    max_tries := none, wait_between_tries := none, always_output_data := false,
    execute_once := false, webhook_id := none, extra := Json.obj [] }

/-- Concrete workflow builder used by witnesses and counterexamples. -/
def mkWorkflow (nm : String) (nodes : List Node) (conns : ConnectionsMap) : TypedWorkflow :=
  { id := none, name := nm, active := false, nodes := nodes, connections := conns,
    settings := settingsW, tags := [], version_id := none }

/-- Workflow whose first node carries name s while a later node carries id s. -/
def wfC4 : TypedWorkflow :=
  mkWorkflow "W" [mkNode "a" "s" "t", mkNode "s" "b" "t"] []

/-- Counterexample for C4 as stated: although a node with id s exists, find_node s
returns the earlier node whose name is s (its id is a, not s), so resolution is
not id-first. -/
theorem find_node_cex :
    ((wfC4.nodes.map (fun n => n.id)).contains "s" = true) ∧
    (wfC4.find_node "s").map (fun n => n.id) = some "a" ∧
    ("a" : String) ≠ "s" :=
  ⟨by decide, rfl, by decide⟩

/-- Witness for the amended C4: the characterization applied at the concrete
workflow yields the first-match result. -/
theorem find_node_characterization_witness :
    wfC4.find_node "s" = some (mkNode "a" "s" "t") :=
  (find_node_characterization wfC4 "s" (mkNode "a" "s" "t")).mpr
    ⟨[], [mkNode "s" "b" "t"], rfl, Or.inr rfl, by simp⟩

/-- C9: atomicity on lookup miss: when no node's id or name equals the lookup
string, remove_node returns none and the workflow is unchanged. -/
theorem remove_node_miss (w : TypedWorkflow) (s : String)
    (h : ∀ n ∈ w.nodes, n.id ≠ s ∧ n.name ≠ s) :
    w.remove_node s = (none, w) := by
  have hf : w.find_node s = none := by
    apply List.find?_eq_none.mpr
    intro n hn
    simp only [Bool.or_eq_true, beq_iff_eq, not_or]
    exact ⟨(h n hn).1, (h n hn).2⟩
  simp [TypedWorkflow.remove_node, hf]

/-- Workflow used by the remove_node lookup-miss witness. -/
def wfC9 : TypedWorkflow :=
  mkWorkflow "W" [mkNode "a" "A" "t"]
    [("A", [("main", [[{ node := "A", connection_type := "main", index := 0 }]])])]

/-- Witness for C9 at a concrete workflow and missing lookup string. -/
theorem remove_node_miss_witness : wfC9.remove_node "zzz" = (none, wfC9) :=
  remove_node_miss wfC9 "zzz" (by decide)

lemma flattenSlots_mem {src pt : String} : ∀ {k : Nat} {slots : List (List ConnectionEndpoint)}
    {c : Connection}, c ∈ flattenSlots src pt k slots →
      ∃ ts ∈ slots, ∃ t ∈ ts, ∃ i, c = mkConn src pt i t := by
  intro k slots
  induction slots generalizing k with
  | nil =>
    intro c hc
    simp [flattenSlots] at hc
  | cons ts rest ih =>
    intro c hc
    rcases List.mem_append.mp hc with hc | hc
    · rcases List.mem_map.mp hc with ⟨t, ht, rfl⟩
      exact ⟨ts, List.mem_cons_self ts rest, t, ht, k, rfl⟩
    · rcases ih hc with ⟨ts2, hts2, t, ht, i, rfl⟩
      exact ⟨ts2, List.mem_cons_of_mem ts hts2, t, ht, i, rfl⟩

lemma flattenPortMap_mem {src : String} : ∀ {pm : PortMap} {c : Connection},
    c ∈ flattenPortMap src pm →
      ∃ p ∈ pm, ∃ ts ∈ p.2, ∃ t ∈ ts, ∃ i, c = mkConn src p.1 i t := by
  intro pm
  induction pm with
  | nil =>
    intro c hc
    simp [flattenPortMap] at hc
  | cons e rest ih =>
    obtain ⟨pt, slots⟩ := e
    intro c hc
    rcases List.mem_append.mp hc with hc | hc
    · rcases flattenSlots_mem hc with ⟨ts, hts, t, ht, i, rfl⟩
      exact ⟨(pt, slots), List.mem_cons_self _ rest, ts, hts, t, ht, i, rfl⟩
    · rcases ih hc with ⟨p, hp, ts, hts, t, ht, i, rfl⟩
      exact ⟨p, List.mem_cons_of_mem _ hp, ts, hts, t, ht, i, rfl⟩

lemma from_mem : ∀ {m : ConnectionsMap} {c : Connection},
    c ∈ Connection.from_connections_map m →
      ∃ e ∈ m, ∃ p ∈ e.2, ∃ ts ∈ p.2, ∃ t ∈ ts, ∃ i, c = mkConn e.1 p.1 i t := by
  intro m
  induction m with
  | nil =>
    intro c hc
    simp [Connection.from_connections_map] at hc
  | cons e rest ih =>
    obtain ⟨src, pm⟩ := e
    intro c hc
    rcases List.mem_append.mp hc with hc | hc
    · rcases flattenPortMap_mem hc with ⟨p, hp, ts, hts, t, ht, i, rfl⟩
      exact ⟨(src, pm), List.mem_cons_self _ rest, p, hp, ts, hts, t, ht, i, rfl⟩
    · rcases ih hc with ⟨e2, he2, p, hp, ts, hts, t, ht, i, rfl⟩
      exact ⟨e2, List.mem_cons_of_mem _ he2, p, hp, ts, hts, t, ht, i, rfl⟩

lemma from_source_mem {m : ConnectionsMap} {c : Connection}
    (hc : c ∈ Connection.from_connections_map m) : c.source_node ∈ keysOf m := by
  rcases from_mem hc with ⟨e, he, p, hp, ts, hts, t, ht, i, rfl⟩
  exact List.mem_map.mpr ⟨e, he, rfl⟩

lemma dropTargets_target {name : String} {m : ConnectionsMap} {c : Connection}
    (hc : c ∈ Connection.from_connections_map (dropTargets name m)) :
    c.target_node ≠ name := by
  rcases from_mem hc with ⟨e, he, p, hp, ts, hts, t, ht, i, rfl⟩
  rcases List.mem_map.mp he with ⟨e0, -, rfl⟩
  rcases List.mem_map.mp hp with ⟨p0, -, rfl⟩
  rcases List.mem_map.mp hts with ⟨ts0, -, rfl⟩
  have := (List.mem_filter.mp ht).2
  simpa [mkConn] using this

lemma keysOf_dropTargets (name : String) (m : ConnectionsMap) :
    keysOf (dropTargets name m) = keysOf m := by
  simp [keysOf, dropTargets, List.map_map, Function.comp]

lemma keysOf_removeKeyEntry_not_mem {β : Type} (k : String) :
    ∀ (m : List (String × β)), NodupKeys m → k ∉ keysOf (removeKeyEntry k m)
  | [], _ => by simp [removeKeyEntry, keysOf]
  | (k2, v) :: rest, hk => by
      have hk2 : k2 ∉ keysOf rest := by
        simpa [NodupKeys, keysOf] using (List.nodup_cons.mp hk).1
      have hrest : NodupKeys rest := by
        simpa [NodupKeys, keysOf] using (List.nodup_cons.mp hk).2
      by_cases h : k2 = k
      · subst h
        simp only [removeKeyEntry, if_pos rfl]
        exact hk2
      · simp only [removeKeyEntry, if_neg h, keysOf, List.map_cons, List.mem_cons]
        rintro (rfl | hmem)
        · exact h rfl
        · exact keysOf_removeKeyEntry_not_mem k rest hrest hmem

lemma extractFirst_decomp {α : Type} (p : α → Bool) :
    ∀ (l1 : List α) (l2 : List α) (a : α), p a = true → (∀ b ∈ l1, p b = false) →
      extractFirst p (l1 ++ a :: l2) = some (a, l1 ++ l2)
  | [], l2, a, hp, _ => by
      simp [extractFirst, hp]
  | b :: l1, l2, a, hp, hall => by
      have hb : p b = false := hall b (List.mem_cons_self b l1)
      have ih := extractFirst_decomp p l1 l2 a hp
        (fun b2 hb2 => hall b2 (List.mem_cons_of_mem b hb2))
      simp [extractFirst, hb, ih]

/-- C3: on an identifier addressing an existing node, remove_node returns the
resolved node, removes exactly that occurrence from the node list, and leaves no
flattened edge whose source or target is the removed node's name; on a lookup
miss it returns none with the workflow unchanged. -/
theorem remove_node_spec (w : TypedWorkflow) (s : String) (hk : NodupKeys w.connections) :
    (w.find_node s = none → w.remove_node s = (none, w)) ∧
    (∀ n, w.find_node s = some n →
      (w.remove_node s).1 = some n ∧
      (∃ l1 l2, w.nodes = l1 ++ n :: l2 ∧ (w.remove_node s).2.nodes = l1 ++ l2) ∧
      (∀ c ∈ Connection.from_connections_map (w.remove_node s).2.connections,
        c.source_node ≠ n.name ∧ c.target_node ≠ n.name)) := by
  constructor
  · intro h
    simp [TypedWorkflow.remove_node, h]
  · intro n hfind
    rcases (find?_decomp _ w.nodes n).mp hfind with ⟨l1, l2, hl, hp, hall⟩
    have hext : extractFirst (fun nd => nd.id == s || nd.name == s) w.nodes
        = some (n, l1 ++ l2) := by
      rw [hl]
      exact extractFirst_decomp _ l1 l2 n hp hall
    have hrn : w.remove_node s = (some n,
        { w with connections := dropTargets n.name (removeKeyEntry n.name w.connections),
                 nodes := l1 ++ l2 }) := by
      simp [TypedWorkflow.remove_node, hfind, hext]
    refine ⟨by rw [hrn], ⟨l1, l2, hl, by rw [hrn]⟩, ?_⟩
    intro c hc
    rw [hrn] at hc
    refine ⟨?_, dropTargets_target hc⟩
    intro hsrc
    have hmem := from_source_mem hc
    rw [hsrc, keysOf_dropTargets] at hmem
    exact keysOf_removeKeyEntry_not_mem n.name w.connections hk hmem

/-- Workflow used by the remove_node witness: two nodes with an edge in each
direction. -/
def wfC3 : TypedWorkflow :=
  mkWorkflow "W" [mkNode "a" "A" "t", mkNode "b" "B" "t"]
    [("A", [("main", [[{ node := "B", connection_type := "main", index := 0 }]])]),
     ("B", [("main", [[{ node := "A", connection_type := "main", index := 0 }]])])]

/-- Witness for C3: removing node a (name A) returns the node and leaves no edge
referencing A. -/
theorem remove_node_spec_witness :
    (wfC3.remove_node "a").1 = some (mkNode "a" "A" "t") ∧
    (∀ c ∈ Connection.from_connections_map (wfC3.remove_node "a").2.connections,
      c.source_node ≠ "A" ∧ c.target_node ≠ "A") := by
  have h := (remove_node_spec wfC3 "a" (by decide)).2 (mkNode "a" "A" "t") rfl
  exact ⟨h.1, h.2.2⟩

/-- Edge-level effect of the rename on a single flat connection: occurrences of
the old name in the source or target position are replaced by the new name. -/
def renameConn (old_name new_name : String) (c : Connection) : Connection :=
  { c with
    source_node := if c.source_node = old_name then new_name else c.source_node,
    target_node := if c.target_node = old_name then new_name else c.target_node }

/-- Edge-level effect of the target rewrite pass alone. -/
def renameConnTarget (old_name new_name : String) (c : Connection) : Connection :=
  if c.target_node = old_name then { c with target_node := new_name } else c

lemma mkConn_renameEndpoint (src pt old_name new_name : String) (k : Nat)
    (t : ConnectionEndpoint) :
    mkConn src pt k (renameEndpoint old_name new_name t)
      = renameConnTarget old_name new_name (mkConn src pt k t) := by
  by_cases h : t.node = old_name <;>
    simp [mkConn, renameEndpoint, renameConnTarget, h]

lemma flattenSlots_renameTargets (src pt old_name new_name : String) :
    ∀ (k : Nat) (slots : List (List ConnectionEndpoint)),
      flattenSlots src pt k (slots.map (fun ts => ts.map (renameEndpoint old_name new_name)))
        = (flattenSlots src pt k slots).map (renameConnTarget old_name new_name)
  | _, [] => by simp [flattenSlots]
  | k, ts :: rest => by
      simp only [List.map_cons, flattenSlots, List.map_append, List.map_map]
      rw [flattenSlots_renameTargets src pt old_name new_name (k + 1) rest]
      congr 1
      apply List.map_congr_left
      intro t _
      exact mkConn_renameEndpoint src pt old_name new_name k t

lemma flattenPortMap_renameTargets (src old_name new_name : String) :
    ∀ pm : PortMap,
      flattenPortMap src (pm.map (fun p => (p.1, p.2.map (fun ts =>
          ts.map (renameEndpoint old_name new_name)))))
        = (flattenPortMap src pm).map (renameConnTarget old_name new_name)
  | [] => by simp [flattenPortMap]
  | (pt, slots) :: rest => by
      simp only [List.map_cons, flattenPortMap, List.map_append]
      rw [flattenPortMap_renameTargets src old_name new_name rest,
        flattenSlots_renameTargets src pt old_name new_name 0 slots]

lemma from_renameTargets (old_name new_name : String) :
    ∀ m : ConnectionsMap,
      Connection.from_connections_map (renameTargets old_name new_name m)
        = (Connection.from_connections_map m).map (renameConnTarget old_name new_name)
  | [] => by simp [renameTargets, Connection.from_connections_map]
  | (src, pm) :: rest => by
      simp only [renameTargets, List.map_cons, Connection.from_connections_map,
        List.map_append]
      rw [flattenPortMap_renameTargets src old_name new_name pm]
      have h := from_renameTargets old_name new_name rest
      simp only [renameTargets] at h
      rw [h]

lemma flattenSlots_source_swap (src src2 pt : String) :
    ∀ (k : Nat) (slots : List (List ConnectionEndpoint)),
      flattenSlots src2 pt k slots
        = (flattenSlots src pt k slots).map (fun c => { c with source_node := src2 })
  | _, [] => by simp [flattenSlots]
  | k, ts :: rest => by
      simp only [flattenSlots, List.map_append, List.map_map]
      rw [flattenSlots_source_swap src src2 pt (k + 1) rest]
      rfl

lemma flattenPortMap_source_swap (src src2 : String) :
    ∀ pm : PortMap,
      flattenPortMap src2 pm
        = (flattenPortMap src pm).map (fun c => { c with source_node := src2 })
  | [] => by simp [flattenPortMap]
  | (pt, slots) :: rest => by
      simp only [flattenPortMap, List.map_append]
      rw [flattenPortMap_source_swap src src2 rest, flattenSlots_source_swap src src2 pt 0 slots]

lemma flattenPortMap_source {src : String} {pm : PortMap} {c : Connection}
    (hc : c ∈ flattenPortMap src pm) : c.source_node = src := by
  rcases flattenPortMap_mem hc with ⟨p, hp, ts, hts, t, ht, i, rfl⟩
  rfl

lemma from_append : ∀ m1 m2 : ConnectionsMap,
    Connection.from_connections_map (m1 ++ m2)
      = Connection.from_connections_map m1 ++ Connection.from_connections_map m2
  | [], m2 => by simp [Connection.from_connections_map]
  | (src, pm) :: rest, m2 => by
      show flattenPortMap src pm ++ Connection.from_connections_map (rest ++ m2) = _
      rw [from_append rest m2]
      show _ = flattenPortMap src pm ++ Connection.from_connections_map rest
        ++ Connection.from_connections_map m2
      rw [List.append_assoc]

lemma lookupKey_eq_none_iff {β : Type} (k : String) : ∀ m : List (String × β),
    lookupKey k m = none ↔ k ∉ keysOf m
  | [] => by simp [lookupKey, keysOf]
  | (k2, v) :: rest => by
      by_cases h : k2 = k
      · subst h
        simp [lookupKey, keysOf]
      · simp only [lookupKey, if_neg h, keysOf, List.map_cons, List.mem_cons]
        rw [lookupKey_eq_none_iff k rest]
        constructor
        · rintro hrest (rfl | hmem)
          · exact h rfl
          · exact hrest hmem
        · intro hall
          exact fun hmem => hall (Or.inr hmem)

lemma lookupKey_append_cons {β : Type} (k : String) (v : β) :
    ∀ (l1 l2 : List (String × β)), (∀ p ∈ l1, p.1 ≠ k) →
      lookupKey k (l1 ++ (k, v) :: l2) = some v
  | [], l2, _ => by simp [lookupKey]
  | (k2, v2) :: l1, l2, h => by
      have hk2 : k2 ≠ k := h (k2, v2) (List.mem_cons_self _ l1)
      simp only [List.cons_append, lookupKey, if_neg hk2]
      exact lookupKey_append_cons k v l1 l2 (fun p hp => h p (List.mem_cons_of_mem _ hp))

lemma removeKey_none {β : Type} (k : String) : ∀ m : List (String × β),
    removeKey k m = none ↔ lookupKey k m = none
  | [] => by simp [removeKey, lookupKey]
  | (k2, v) :: rest => by
      by_cases h : k2 = k
      · subst h
        simp [removeKey, lookupKey]
      · simp only [removeKey, if_neg h, lookupKey, Option.map_eq_none']
        exact removeKey_none k rest

lemma removeKey_some {β : Type} (k : String) : ∀ (m rest : List (String × β)) (v : β),
    removeKey k m = some (v, rest) →
      ∃ l1 l2, m = l1 ++ (k, v) :: l2 ∧ rest = l1 ++ l2 ∧ ∀ p ∈ l1, p.1 ≠ k
  | [], rest, v => by simp [removeKey]
  | (k2, v2) :: tail, rest, v => by
      by_cases h : k2 = k
      · subst h
        simp only [removeKey, if_pos rfl, Option.some.injEq, Prod.mk.injEq]
        rintro ⟨rfl, rfl⟩
        exact ⟨[], tail, rfl, rfl, by simp⟩
      · intro hmap
        simp only [removeKey, if_neg h] at hmap
        cases hrec : removeKey k tail with
        | none =>
          rw [hrec] at hmap
          simp at hmap
        | some q =>
          obtain ⟨v3, rest3⟩ := q
          rw [hrec] at hmap
          simp only [Option.map_some', Option.some.injEq, Prod.mk.injEq] at hmap
          obtain ⟨rfl, rfl⟩ := hmap
          rcases removeKey_some k tail rest3 v3 hrec with ⟨l1, l2, hm, hr, hl1⟩
          refine ⟨(k2, v2) :: l1, l2, by rw [hm, List.cons_append],
            by rw [hr, List.cons_append], ?_⟩
          intro p hp
          rcases List.mem_cons.mp hp with heq | hp
          · rw [heq]
            exact h
          · exact hl1 p hp

lemma insertKey_not_contains {β : Type} (k : String) (v : β) : ∀ m : List (String × β),
    lookupKey k m = none → insertKey k v m = m ++ [(k, v)]
  | [], _ => by simp [insertKey]
  | (k2, v2) :: rest, h => by
      by_cases hk : k2 = k
      · subst hk
        simp [lookupKey] at h
      · simp only [lookupKey, if_neg hk] at h
        simp only [insertKey, if_neg hk, List.cons_append, List.cons.injEq, true_and]
        exact insertKey_not_contains k v rest h

lemma insertKey_at_key {β : Type} (k : String) (v w : β) :
    ∀ (l1 l2 : List (String × β)), (∀ p ∈ l1, p.1 ≠ k) →
      insertKey k v (l1 ++ (k, w) :: l2) = l1 ++ (k, v) :: l2
  | [], l2, _ => by simp [insertKey]
  | (k2, v2) :: l1, l2, h => by
      have hk2 : k2 ≠ k := h (k2, v2) (List.mem_cons_self _ l1)
      simp only [List.cons_append, insertKey, if_neg hk2, List.cons.injEq, true_and]
      exact insertKey_at_key k v w l1 l2 (fun p hp => h p (List.mem_cons_of_mem _ hp))

lemma flattenPortMap_subset_from : ∀ {m : ConnectionsMap} {e : String × PortMap}, e ∈ m →
    ∀ {c : Connection}, c ∈ flattenPortMap e.1 e.2 → c ∈ Connection.from_connections_map m := by
  intro m
  induction m with
  | nil =>
    intro e he
    simp at he
  | cons e2 rest ih =>
    intro e he c hc
    obtain ⟨src, pm⟩ := e2
    rcases List.mem_cons.mp he with heq | hmem
    · subst heq
      exact List.mem_append.mpr (Or.inl hc)
    · exact List.mem_append.mpr (Or.inr (ih hmem hc))

lemma renameConn_eq_target (old_name new_name : String) (c : Connection)
    (h : c.source_node ≠ old_name) :
    renameConn old_name new_name c = renameConnTarget old_name new_name c := by
  by_cases ht : c.target_node = old_name <;>
    simp [renameConn, renameConnTarget, h, ht]

lemma renameConn_eq_source (old_name new_name : String) (c : Connection)
    (h : c.source_node = old_name) :
    renameConn old_name new_name c
      = renameConnTarget old_name new_name { c with source_node := new_name } := by
  by_cases ht : c.target_node = old_name <;>
    simp [renameConn, renameConnTarget, h, ht]

lemma renameConnTarget_target_ne (old_name new_name : String) (d : Connection)
    (hne : old_name ≠ new_name) :
    (renameConnTarget old_name new_name d).target_node ≠ old_name := by
  by_cases ht : d.target_node = old_name <;> simp [renameConnTarget, ht]
  exact fun h => hne h.symm

lemma renameConnTarget_source (old_name new_name : String) (d : Connection) :
    (renameConnTarget old_name new_name d).source_node = d.source_node := by
  by_cases ht : d.target_node = old_name <;> simp [renameConnTarget, ht]

/-- C2 (amended): provided the two names differ and the old and new names are not
both already outer source keys of the map, rename_node_in_connections sends every
flattened edge that referenced the old name (as source or target) to its renamed
image, and afterwards no flattened edge references the old name. The NodupKeys
hypothesis is the HashMap key-uniqueness invariant. -/
theorem rename_node_in_connections_spec (m : ConnectionsMap) (old_name new_name : String)
    (hk : NodupKeys m) (hne : old_name ≠ new_name)
    (hnb : ¬(containsKey old_name m = true ∧ containsKey new_name m = true)) :
    (∀ c ∈ Connection.from_connections_map m,
      (c.source_node = old_name ∨ c.target_node = old_name) →
        renameConn old_name new_name c ∈
          Connection.from_connections_map (renameNodeInConnectionsMap m old_name new_name)) ∧
    (∀ c ∈ Connection.from_connections_map (renameNodeInConnectionsMap m old_name new_name),
      c.source_node ≠ old_name ∧ c.target_node ≠ old_name) := by
  cases hrem : removeKey old_name m with
  | none =>
    have hlook : lookupKey old_name m = none := (removeKey_none old_name m).mp hrem
    have hnotmem : old_name ∉ keysOf m := (lookupKey_eq_none_iff old_name m).mp hlook
    have hren : renameNodeInConnectionsMap m old_name new_name
        = renameTargets old_name new_name m := by
      simp [renameNodeInConnectionsMap, hrem]
    constructor
    · intro c hc href
      have hsrc : c.source_node ≠ old_name := by
        intro hs
        exact hnotmem (hs ▸ from_source_mem hc)
      rw [hren, from_renameTargets, renameConn_eq_target old_name new_name c hsrc]
      exact List.mem_map.mpr ⟨c, hc, rfl⟩
    · intro c hc
      rw [hren, from_renameTargets] at hc
      rcases List.mem_map.mp hc with ⟨d, hd, rfl⟩
      refine ⟨?_, renameConnTarget_target_ne old_name new_name d hne⟩
      rw [renameConnTarget_source]
      intro hs
      exact hnotmem (hs ▸ from_source_mem hd)
  | some q =>
    obtain ⟨v, rest⟩ := q
    rcases removeKey_some old_name m rest v hrem with ⟨l1, l2, hm, hrest, hl1⟩
    have hcontold : containsKey old_name m = true := by
      simp only [containsKey]
      rw [hm, lookupKey_append_cons old_name v l1 l2 hl1]
      rfl
    have hlooknew : lookupKey new_name m = none := by
      cases hl : lookupKey new_name m with
      | none => rfl
      | some w =>
        exfalso
        apply hnb
        refine ⟨hcontold, ?_⟩
        simp only [containsKey, hl]
        rfl
    have hnewnotmem : new_name ∉ keysOf m := (lookupKey_eq_none_iff new_name m).mp hlooknew
    have hnewrest : lookupKey new_name rest = none := by
      rw [lookupKey_eq_none_iff]
      intro hmem
      apply hnewnotmem
      rw [hm]
      rw [hrest] at hmem
      simp only [keysOf, List.map_append, List.mem_append] at hmem
      simp only [keysOf, List.map_append, List.map_cons, List.mem_append, List.mem_cons]
      rcases hmem with h1 | h2
      · exact Or.inl h1
      · exact Or.inr (Or.inr h2)
    have hins : insertKey new_name v rest = rest ++ [(new_name, v)] :=
      insertKey_not_contains new_name v rest hnewrest
    have hren : renameNodeInConnectionsMap m old_name new_name
        = renameTargets old_name new_name (rest ++ [(new_name, v)]) := by
      simp [renameNodeInConnectionsMap, hrem, hins]
    have hl2 : ∀ p ∈ l2, p.1 ≠ old_name := by
      intro p hp hpe
      have hmem2 : old_name ∈ keysOf l2 := by
        simp only [keysOf]
        exact List.mem_map.mpr ⟨p, hp, hpe⟩
      have hsub : (old_name :: keysOf l2).Sublist (keysOf m) := by
        rw [hm]
        simp only [keysOf, List.map_append, List.map_cons]
        exact List.sublist_append_right _ _
      have hnodup2 : (old_name :: keysOf l2).Nodup := List.Nodup.sublist hsub hk
      exact (List.nodup_cons.mp hnodup2).1 hmem2
    have hsrc_l1 : ∀ d, d ∈ Connection.from_connections_map l1 →
        d.source_node ≠ old_name := by
      intro d hd hde
      rcases List.mem_map.mp (from_source_mem hd) with ⟨p, hp, hpe⟩
      exact hl1 p hp (hpe.trans hde)
    have hsrc_l2 : ∀ d, d ∈ Connection.from_connections_map l2 →
        d.source_node ≠ old_name := by
      intro d hd hde
      rcases List.mem_map.mp (from_source_mem hd) with ⟨p, hp, hpe⟩
      exact hl2 p hp (hpe.trans hde)
    have hRrest : ∀ d, d ∈ Connection.from_connections_map rest →
        d ∈ Connection.from_connections_map (rest ++ [(new_name, v)]) := by
      intro d hd
      rw [from_append]
      exact List.mem_append.mpr (Or.inl hd)
    have hRnew : ∀ d, d ∈ flattenPortMap new_name v →
        d ∈ Connection.from_connections_map (rest ++ [(new_name, v)]) := by
      intro d hd
      exact flattenPortMap_subset_from (e := (new_name, v)) (by simp) hd
    constructor
    · intro c hc href
      rw [hren, from_renameTargets]
      rw [hm, from_append] at hc
      simp only [Connection.from_connections_map] at hc
      rcases List.mem_append.mp hc with h1 | h23
      · have hsrc := hsrc_l1 c h1
        rw [renameConn_eq_target old_name new_name c hsrc]
        apply List.mem_map.mpr
        refine ⟨c, ?_, rfl⟩
        apply hRrest
        rw [hrest, from_append]
        exact List.mem_append.mpr (Or.inl h1)
      · rcases List.mem_append.mp h23 with h2 | h3
        · have hsrc := flattenPortMap_source h2
          rw [renameConn_eq_source old_name new_name c hsrc]
          apply List.mem_map.mpr
          refine ⟨{ c with source_node := new_name }, ?_, rfl⟩
          apply hRnew
          rw [flattenPortMap_source_swap old_name new_name v]
          exact List.mem_map.mpr ⟨c, h2, rfl⟩
        · have hsrc := hsrc_l2 c h3
          rw [renameConn_eq_target old_name new_name c hsrc]
          apply List.mem_map.mpr
          refine ⟨c, ?_, rfl⟩
          apply hRrest
          rw [hrest, from_append]
          exact List.mem_append.mpr (Or.inr h3)
    · intro c hc
      rw [hren, from_renameTargets] at hc
      rcases List.mem_map.mp hc with ⟨d, hd, rfl⟩
      refine ⟨?_, renameConnTarget_target_ne old_name new_name d hne⟩
      rw [renameConnTarget_source]
      rw [from_append] at hd
      rcases List.mem_append.mp hd with hd1 | hd2
      · rw [hrest, from_append] at hd1
        rcases List.mem_append.mp hd1 with h | h
        · exact hsrc_l1 d h
        · exact hsrc_l2 d h
      · simp only [Connection.from_connections_map] at hd2
        rw [List.append_nil] at hd2
        rw [flattenPortMap_source hd2]
        exact fun h => hne h.symm

/-- Map with outer keys A and B where the fan-out of B targets A. -/
def cmC2 : ConnectionsMap :=
  [("A", [("main", [[{ node := "C", connection_type := "main", index := 0 }]])]),
   ("B", [("main", [[{ node := "A", connection_type := "main", index := 0 }]])])]

/-- Counterexample for C2 as stated: in the map above, the edge from B to A
references A, but after rename(A, B) its renamed image (B to B) is absent, because
re-keying A's entry to B overwrote B's existing fan-out. -/
theorem rename_node_in_connections_cex :
    ¬ (∀ c ∈ Connection.from_connections_map cmC2,
        (c.source_node = "A" ∨ c.target_node = "A") →
          renameConn "A" "B" c ∈
            Connection.from_connections_map (renameNodeInConnectionsMap cmC2 "A" "B")) := by
  intro h
  have hc : (Connection.mk "B" 0 "main" "A" 0 "main") ∈
      Connection.from_connections_map cmC2 := by decide
  exact absurd (h _ hc (Or.inr rfl)) (by decide)

/-- Map used by the rename witness: the old name A is a key, the new name B is
not. -/
def cmC2w : ConnectionsMap :=
  [("A", [("main", [[{ node := "A", connection_type := "main", index := 0 },
                     { node := "X", connection_type := "main", index := 0 }]])]),
   ("X", [("main", [[{ node := "A", connection_type := "main", index := 0 }]])])]

/-- Witness for the amended C2: the renamed image of the self-loop on A is present
after rename(A, B) in the concrete map. -/
theorem rename_node_in_connections_spec_witness :
    renameConn "A" "B" (Connection.mk "A" 0 "main" "A" 0 "main") ∈
      Connection.from_connections_map (renameNodeInConnectionsMap cmC2w "A" "B") :=
  (rename_node_in_connections_spec cmC2w "A" "B" (by decide) (by decide) (by decide)).1
    (Connection.mk "A" 0 "main" "A" 0 "main") (by decide) (Or.inl rfl)

/-- Per-entry effect of the target rewrite pass on one nested value. -/
def renamePortMapTargets (old_name new_name : String) (pm : PortMap) : PortMap :=
  pm.map (fun p => (p.1, p.2.map (fun ts => ts.map (renameEndpoint old_name new_name))))

lemma lookupKey_some_decomp {β : Type} (k : String) : ∀ (m : List (String × β)) (w : β),
    lookupKey k m = some w → ∃ a b, m = a ++ (k, w) :: b ∧ ∀ p ∈ a, p.1 ≠ k
  | [], w => by simp [lookupKey]
  | (k2, v2) :: rest, w => by
      by_cases h : k2 = k
      · subst h
        intro hw
        have hv : v2 = w := by
          simpa [lookupKey] using hw
        subst hv
        exact ⟨[], rest, rfl, by simp⟩
      · simp only [lookupKey, if_neg h]
        intro hrec
        rcases lookupKey_some_decomp k rest w hrec with ⟨a, b, hab, ha⟩
        refine ⟨(k2, v2) :: a, b, by rw [hab, List.cons_append], ?_⟩
        intro p hp
        rcases List.mem_cons.mp hp with heq | hp
        · rw [heq]
          exact h
        · exact ha p hp

lemma lookupKey_append_cons_ne {β : Type} (k j : String) (v : β) (hkj : j ≠ k) :
    ∀ l1 l2 : List (String × β),
      lookupKey k (l1 ++ (j, v) :: l2) = lookupKey k (l1 ++ l2)
  | [], l2 => by simp [lookupKey, hkj]
  | (k2, v2) :: l1, l2 => by
      by_cases h : k2 = k
      · simp [lookupKey, h]
      · simp only [List.cons_append, lookupKey, if_neg h]
        exact lookupKey_append_cons_ne k j v hkj l1 l2

lemma lookupKey_renameTargets (old_name new_name k : String) : ∀ m : ConnectionsMap,
    lookupKey k (renameTargets old_name new_name m)
      = (lookupKey k m).map (renamePortMapTargets old_name new_name)
  | [] => rfl
  | (k2, pm) :: rest => by
      by_cases h : k2 = k
      · simp [renameTargets, lookupKey, h, renamePortMapTargets]
      · simp only [renameTargets, List.map_cons, lookupKey, if_neg h]
        exact lookupKey_renameTargets old_name new_name k rest

/-- C10 (amended): provided oldName and newName differ, when both already occur as
outer source keys the rename overwrites newName's entry with oldName's nested
value (with targets rewritten), and the flattened edges of the result together
with the renamed images of the edges previously sourced at newName are exactly the
renamed original edges: newName's previous fan-out is discarded, not merged. -/
theorem rename_overwrite_spec (m : ConnectionsMap) (old_name new_name : String)
    (w : PortMap) (hk : NodupKeys m) (hne : old_name ≠ new_name)
    (hold : containsKey old_name m = true)
    (hneww : lookupKey new_name m = some w) :
    lookupKey new_name (renameNodeInConnectionsMap m old_name new_name)
      = (lookupKey old_name m).map (renamePortMapTargets old_name new_name) ∧
    (Connection.from_connections_map (renameNodeInConnectionsMap m old_name new_name)
        : Multiset Connection)
      + Multiset.map (renameConn old_name new_name)
          (flattenPortMap new_name w : Multiset Connection)
      = Multiset.map (renameConn old_name new_name)
          (Connection.from_connections_map m : Multiset Connection) := by
  cases hrem : removeKey old_name m with
  | none =>
    exfalso
    have hlook := (removeKey_none old_name m).mp hrem
    simp [containsKey, hlook] at hold
  | some q =>
    obtain ⟨v, rest⟩ := q
    rcases removeKey_some old_name m rest v hrem with ⟨l1, l2, hm, hrest, hl1⟩
    have hlookrest : lookupKey new_name rest = some w := by
      rw [hrest]
      have hskip := lookupKey_append_cons_ne new_name old_name v hne l1 l2
      rw [← hskip, ← hm]
      exact hneww
    rcases lookupKey_some_decomp new_name rest w hlookrest with ⟨a, b, hab, ha⟩
    have hins : insertKey new_name v rest = a ++ (new_name, v) :: b := by
      rw [hab]
      exact insertKey_at_key new_name v w a b ha
    have hren : renameNodeInConnectionsMap m old_name new_name
        = renameTargets old_name new_name (a ++ (new_name, v) :: b) := by
      simp [renameNodeInConnectionsMap, hrem, hins]
    constructor
    · rw [hren, lookupKey_renameTargets, lookupKey_append_cons new_name v a b ha,
        hm, lookupKey_append_cons old_name v l1 l2 hl1]
    · have hfromX : Connection.from_connections_map (a ++ (new_name, v) :: b)
          = Connection.from_connections_map a ++ (flattenPortMap new_name v
            ++ Connection.from_connections_map b) := by
        rw [from_append]
        rfl
      have hfromrest : Connection.from_connections_map rest
          = Connection.from_connections_map a ++ (flattenPortMap new_name w
            ++ Connection.from_connections_map b) := by
        rw [hab, from_append]
        rfl
      have hfromrest2 : Connection.from_connections_map rest
          = Connection.from_connections_map l1 ++ Connection.from_connections_map l2 := by
        rw [hrest, from_append]
      have hfromm : Connection.from_connections_map m
          = Connection.from_connections_map l1 ++ (flattenPortMap old_name v
            ++ Connection.from_connections_map l2) := by
        rw [hm, from_append]
        rfl
      have hl2 : ∀ p ∈ l2, p.1 ≠ old_name := by
        intro p hp hpe
        have hmem2 : old_name ∈ keysOf l2 := by
          simp only [keysOf]
          exact List.mem_map.mpr ⟨p, hp, hpe⟩
        have hsub : (old_name :: keysOf l2).Sublist (keysOf m) := by
          rw [hm]
          simp only [keysOf, List.map_append, List.map_cons]
          exact List.sublist_append_right _ _
        have hnodup2 : (old_name :: keysOf l2).Nodup := List.Nodup.sublist hsub hk
        exact (List.nodup_cons.mp hnodup2).1 hmem2
      have hW : Multiset.map (renameConn old_name new_name)
          (flattenPortMap new_name w : Multiset Connection)
          = Multiset.map (renameConnTarget old_name new_name)
            (flattenPortMap new_name w : Multiset Connection) := by
        apply Multiset.map_congr rfl
        intro x hx
        apply renameConn_eq_target
        rw [flattenPortMap_source (Multiset.mem_coe.mp hx)]
        exact hne.symm
      have hL1 : Multiset.map (renameConn old_name new_name)
          (Connection.from_connections_map l1 : Multiset Connection)
          = Multiset.map (renameConnTarget old_name new_name)
            (Connection.from_connections_map l1 : Multiset Connection) := by
        apply Multiset.map_congr rfl
        intro x hx
        apply renameConn_eq_target
        intro hxe
        rcases List.mem_map.mp (from_source_mem (Multiset.mem_coe.mp hx)) with ⟨p, hp, hpe⟩
        exact hl1 p hp (hpe.trans hxe)
      have hL2 : Multiset.map (renameConn old_name new_name)
          (Connection.from_connections_map l2 : Multiset Connection)
          = Multiset.map (renameConnTarget old_name new_name)
            (Connection.from_connections_map l2 : Multiset Connection) := by
        apply Multiset.map_congr rfl
        intro x hx
        apply renameConn_eq_target
        intro hxe
        rcases List.mem_map.mp (from_source_mem (Multiset.mem_coe.mp hx)) with ⟨p, hp, hpe⟩
        exact hl2 p hp (hpe.trans hxe)
      have hVold : Multiset.map (renameConn old_name new_name)
          (flattenPortMap old_name v : Multiset Connection)
          = Multiset.map (renameConnTarget old_name new_name)
            (flattenPortMap new_name v : Multiset Connection) := by
        rw [flattenPortMap_source_swap old_name new_name v]
        rw [Multiset.map_coe, Multiset.map_coe, List.map_map]
        congr 1
        apply List.map_congr_left
        intro x hx
        exact renameConn_eq_source old_name new_name x (flattenPortMap_source hx)
      rw [hren, from_renameTargets, hfromX, hfromm, hW]
      rw [List.map_append, List.map_append]
      rw [← Multiset.coe_add, ← Multiset.coe_add, ← Multiset.coe_add, ← Multiset.coe_add]
      rw [Multiset.map_add, Multiset.map_add]
      rw [← Multiset.map_coe, ← Multiset.map_coe, ← Multiset.map_coe]
      rw [hL1, hL2, hVold]
      have happly : Multiset.map (renameConnTarget old_name new_name)
            (Connection.from_connections_map a : Multiset Connection)
          + (Multiset.map (renameConnTarget old_name new_name)
              (flattenPortMap new_name w : Multiset Connection)
            + Multiset.map (renameConnTarget old_name new_name)
              (Connection.from_connections_map b : Multiset Connection))
          = Multiset.map (renameConnTarget old_name new_name)
              (Connection.from_connections_map l1 : Multiset Connection)
          + Multiset.map (renameConnTarget old_name new_name)
              (Connection.from_connections_map l2 : Multiset Connection) := by
        have hlist : Connection.from_connections_map a ++ (flattenPortMap new_name w
            ++ Connection.from_connections_map b)
            = Connection.from_connections_map l1 ++ Connection.from_connections_map l2 := by
          rw [← hfromrest, hfromrest2]
        have := congrArg (fun l : List Connection =>
          Multiset.map (renameConnTarget old_name new_name) (l : Multiset Connection)) hlist
        simpa [← Multiset.coe_add, Multiset.map_add] using this
      calc Multiset.map (renameConnTarget old_name new_name)
              (Connection.from_connections_map a : Multiset Connection)
            + (Multiset.map (renameConnTarget old_name new_name)
                (flattenPortMap new_name v : Multiset Connection)
              + Multiset.map (renameConnTarget old_name new_name)
                (Connection.from_connections_map b : Multiset Connection))
            + Multiset.map (renameConnTarget old_name new_name)
                (flattenPortMap new_name w : Multiset Connection)
          = (Multiset.map (renameConnTarget old_name new_name)
              (Connection.from_connections_map a : Multiset Connection)
            + (Multiset.map (renameConnTarget old_name new_name)
                (flattenPortMap new_name w : Multiset Connection)
              + Multiset.map (renameConnTarget old_name new_name)
                (Connection.from_connections_map b : Multiset Connection)))
            + Multiset.map (renameConnTarget old_name new_name)
                (flattenPortMap new_name v : Multiset Connection) := by abel
        _ = (Multiset.map (renameConnTarget old_name new_name)
              (Connection.from_connections_map l1 : Multiset Connection)
            + Multiset.map (renameConnTarget old_name new_name)
              (Connection.from_connections_map l2 : Multiset Connection))
            + Multiset.map (renameConnTarget old_name new_name)
                (flattenPortMap new_name v : Multiset Connection) := by rw [happly]
        _ = Multiset.map (renameConnTarget old_name new_name)
              (Connection.from_connections_map l1 : Multiset Connection)
            + (Multiset.map (renameConnTarget old_name new_name)
                (flattenPortMap new_name v : Multiset Connection)
              + Multiset.map (renameConnTarget old_name new_name)
                (Connection.from_connections_map l2 : Multiset Connection)) := by abel

/-- Map used by the C10 counterexample: a single outer key A with one edge. -/
def cmC10 : ConnectionsMap :=
  [("A", [("main", [[{ node := "B", connection_type := "main", index := 0 }]])])]

/-- Counterexample for C10 as stated: with oldName = newName = A (so both names
trivially occur as outer source keys), nothing is discarded: the edge sourced at A
survives the rename, so the claim fails for equal names. -/
theorem rename_overwrite_cex :
    ¬ (∀ c ∈ Connection.from_connections_map cmC10, c.source_node = "A" →
        c ∉ Connection.from_connections_map (renameNodeInConnectionsMap cmC10 "A" "A")) := by
  intro h
  have hc : (Connection.mk "A" 0 "main" "B" 0 "main") ∈
      Connection.from_connections_map cmC10 := by decide
  exact h _ hc rfl (by decide)

/-- Map used by the C10 witness: outer keys A and B with one edge each. -/
def cmC10w : ConnectionsMap :=
  [("A", [("main", [[{ node := "C", connection_type := "main", index := 0 }]])]),
   ("B", [("main", [[{ node := "A", connection_type := "main", index := 0 }]])])]

/-- Witness for the amended C10 at a concrete map with both keys present. -/
theorem rename_overwrite_spec_witness :
    lookupKey "B" (renameNodeInConnectionsMap cmC10w "A" "B")
      = (lookupKey "A" cmC10w).map (renamePortMapTargets "A" "B") ∧
    (Connection.from_connections_map (renameNodeInConnectionsMap cmC10w "A" "B")
        : Multiset Connection)
      + Multiset.map (renameConn "A" "B")
          (flattenPortMap "B"
            [("main", [[{ node := "A", connection_type := "main", index := 0 }]])]
            : Multiset Connection)
      = Multiset.map (renameConn "A" "B")
          (Connection.from_connections_map cmC10w : Multiset Connection) :=
  rename_overwrite_spec cmC10w "A" "B"
    [("main", [[{ node := "A", connection_type := "main", index := 0 }]])]
    (by decide) (by decide) (by decide) (by decide)

/-- Embedding of ValidationSeverity from src/validation/workflow.rs. -/
inductive ValidationSeverity where
  | Error : ValidationSeverity
  | Warning : ValidationSeverity
deriving DecidableEq

/-- Embedding of ValidationIssue from src/validation/workflow.rs. -/
structure ValidationIssue where
  severity : ValidationSeverity
  message : String
  node : Option String
deriving DecidableEq

/-- Embedding of ValidationResult from src/validation/workflow.rs. -/
structure ValidationResult where
  issues : List ValidationIssue
deriving DecidableEq

/-- Embedding of ValidationResult::is_valid: true iff no issue has Error
severity. -/
def ValidationResult.is_valid (r : ValidationResult) : Bool :=
  !(r.issues.any (fun i => i.severity == ValidationSeverity.Error))

/-- Embedding of TypedWorkflow::has_trigger. -/
def TypedWorkflow.has_trigger (w : TypedWorkflow) : Bool :=
  w.nodes.any (fun n => n.is_trigger)

/-- Duplicate-id scan of validate_workflow: flags every occurrence of an id seen
earlier (the HashSet insert of the source returning false). -/
def dupIdIssues (seen : List String) : List Node → List ValidationIssue
  | [] => []
  | n :: rest =>
      if seen.contains n.id then
        { severity := ValidationSeverity.Error,
          message := "Duplicate node ID: " ++ n.id,
          node := some n.name } :: dupIdIssues seen rest
      else dupIdIssues (n.id :: seen) rest

/-- Duplicate-name scan of validate_workflow. -/
def dupNameIssues (seen : List String) : List Node → List ValidationIssue
  | [] => []
  | n :: rest =>
      if seen.contains n.name then
        { severity := ValidationSeverity.Error,
          message := "Duplicate node name: " ++ n.name,
          node := some n.name } :: dupNameIssues seen rest
      else dupNameIssues (n.name :: seen) rest

/-- Embedding of validate_workflow from src/validation/workflow.rs. The HashSets
of the source are embedded as lists with contains tests; issues follow the push
order of the source. -/
def validate_workflow (w : TypedWorkflow) : ValidationResult :=
  if w.nodes.isEmpty then
    { issues := [{ severity := ValidationSeverity.Warning,
                   message := "Workflow has no nodes", node := none }] }
  else
    let valid_nodes := w.nodes.map (fun n => n.name)
    let connections := w.connections_flat
    let trigger_issues :=
      if !w.has_trigger then
        [{ severity := ValidationSeverity.Warning,
           message := "No trigger node found. Workflow can only be executed manually.",
           node := none }]
      else []
    let conn_issues := connections.flatMap (fun c =>
      (if !(valid_nodes.contains c.source_node) then
        [{ severity := ValidationSeverity.Error,
           message := "Connection references non-existent source node: " ++ c.source_node,
           node := some c.source_node }]
      else [])
      ++ (if !(valid_nodes.contains c.target_node) then
        [{ severity := ValidationSeverity.Error,
           message := "Connection references non-existent target node: " ++ c.target_node,
           node := some c.target_node }]
      else []))
    let connected_nodes := connections.flatMap (fun c => [c.source_node, c.target_node])
    let orphan_issues := w.nodes.flatMap (fun n =>
      if !n.is_trigger && !(connected_nodes.contains n.name) then
        [{ severity := ValidationSeverity.Warning,
           message := "Node \x27" ++ n.name ++ "\x27 is not connected to any other node",
           node := some n.name }]
      else [])
    let self_loop_issues := connections.flatMap (fun c =>
      if c.source_node == c.target_node then
        [{ severity := ValidationSeverity.Warning,
           message := "Node \x27" ++ c.source_node ++ "\x27 has a self-loop connection",
           node := some c.source_node }]
      else [])
    let empty_name_issues := w.nodes.flatMap (fun n =>
      if n.name.trim.isEmpty then
        [{ severity := ValidationSeverity.Error,
           message := "Node has empty name", node := some n.id }]
      else [])
    let wf_name_issues :=
      if w.name.trim.isEmpty then
        [{ severity := ValidationSeverity.Error,
           message := "Workflow has empty name", node := none }]
      else []
    { issues := dupIdIssues [] w.nodes ++ dupNameIssues [] w.nodes ++ trigger_issues
        ++ conn_issues ++ orphan_issues ++ self_loop_issues ++ empty_name_issues
        ++ wf_name_issues }

/-- C7: for a workflow with an empty node list, validate_workflow returns exactly
one issue, the no-nodes Warning, and evaluates no further rule; is_valid is true
for such a workflow even when its name is empty or whitespace-only. -/
theorem validate_workflow_empty (w : TypedWorkflow) (h : w.nodes = []) :
    validate_workflow w = ValidationResult.mk
      [ValidationIssue.mk ValidationSeverity.Warning "Workflow has no nodes" none] ∧
    (validate_workflow w).is_valid = true := by
  have hempty : w.nodes.isEmpty = true := by
    rw [h]
    rfl
  constructor
  · simp [validate_workflow, hempty]
  · simp [validate_workflow, hempty, ValidationResult.is_valid]

/-- Workflow with an empty node list and a whitespace-only name. -/
def wfC7 : TypedWorkflow := mkWorkflow " " [] []

/-- Witness for C7: the concrete empty workflow with a whitespace-only name
yields exactly the single warning and counts as valid. -/
theorem validate_workflow_empty_witness :
    validate_workflow wfC7 = ValidationResult.mk
      [ValidationIssue.mk ValidationSeverity.Warning "Workflow has no nodes" none] ∧
    (validate_workflow wfC7).is_valid = true :=
  validate_workflow_empty wfC7 rfl

mutual

/-- Canonical textual form of a Json value: the model of the pretty printer the
differ applies to node parameters (serde to_string_pretty); only its character as
a function matters to the claims, since equal values print equally. -/
def jsonToStr : Json → String
  | Json.null => "null"
  | Json.bool b => if b then "true" else "false"
  | Json.num lit => lit
  | Json.str s => "\"" ++ s ++ "\""
  | Json.arr items => "[" ++ jsonArrToStr items ++ "]"
  | Json.obj fields => "\x7b" ++ jsonObjToStr fields ++ "\x7d"

/-- Textual form of a Json array body. -/
def jsonArrToStr : List Json → String
  | [] => ""
  | [x] => jsonToStr x
  | x :: xs => jsonToStr x ++ "," ++ jsonArrToStr xs

/-- Textual form of a Json object body. -/
def jsonObjToStr : List (String × Json) → String
  | [] => ""
  | [(k, v)] => "\"" ++ k ++ "\":" ++ jsonToStr v
  | (k, v) :: xs => "\"" ++ k ++ "\":" ++ jsonToStr v ++ "," ++ jsonObjToStr xs

end

/-- Modelled from the spec: the line-level diff of the external similar crate
(TextDiff::from_lines with delete, insert and equal tagged lines) is abstracted
as a function tagging every old line as a deletion and every new line as an
insertion; only its character as a function matters to the claims. -/
def unifiedDiff (old_text new_text : String) : String :=
  String.intercalate "\n" ((old_text.splitOn "\n").map (fun l => "-" ++ l)
    ++ (new_text.splitOn "\n").map (fun l => "+" ++ l))

/-- Embedding of NodeChange from src/diff/workflow_diff.rs. -/
inductive NodeChange where
  | NameChanged : String → String → NodeChange
  | TypeChanged : String → String → NodeChange
  | PositionChanged : Int × Int → Int × Int → NodeChange
  | DisabledChanged : Bool → Bool → NodeChange
  | ParametersChanged : String → NodeChange

/-- Embedding of NodeDiff from src/diff/workflow_diff.rs. -/
structure NodeDiff where
  node_id : String
  node_name : String
  changes : List NodeChange

/-- Embedding of WorkflowDiff from src/diff/workflow_diff.rs. -/
structure WorkflowDiff where
  name_changed : Option (String × String)
  active_changed : Option (Bool × Bool)
  nodes_added : List Node
  nodes_removed : List Node
  nodes_modified : List NodeDiff
  connections_added : List Connection
  connections_removed : List Connection

/-- Embedding of WorkflowDiff::compare_nodes: field-by-field comparison plus the
textual parameter diff; returns none when no change entry was produced. -/
def compare_nodes (old_node new_node : Node) : Option NodeDiff :=
  let changes :=
    (if old_node.name ≠ new_node.name then
      [NodeChange.NameChanged old_node.name new_node.name]
    else [])
    ++ (if old_node.node_type ≠ new_node.node_type then
      [NodeChange.TypeChanged old_node.node_type new_node.node_type]
    else [])
    ++ (if old_node.position.x ≠ new_node.position.x
          ∨ old_node.position.y ≠ new_node.position.y then
      [NodeChange.PositionChanged (old_node.position.x, old_node.position.y)
        (new_node.position.x, new_node.position.y)]
    else [])
    ++ (if old_node.disabled ≠ new_node.disabled then
      [NodeChange.DisabledChanged old_node.disabled new_node.disabled]
    else [])
    ++ (let old_params := jsonToStr old_node.parameters
        let new_params := jsonToStr new_node.parameters
        if old_params ≠ new_params then
          (let unified := unifiedDiff old_params new_params
           if unified.isEmpty then [] else [NodeChange.ParametersChanged unified])
        else [])
  if changes.isEmpty then none
  else some (NodeDiff.mk old_node.id old_node.name changes)

/-- Node maps keyed by id: the embedding of the HashMap collect of
WorkflowDiff::compare (later entries overwrite earlier ones on duplicate ids). -/
def buildNodeMap (nodes : List Node) : List (String × Node) :=
  nodes.foldl (fun m n => insertKey n.id n m) []

/-- Connection comparison key of WorkflowDiff::compare. -/
def connKey (c : Connection) : String × Nat × String × Nat :=
  (c.source_node, c.source_output, c.target_node, c.target_input)

/-- Embedding of WorkflowDiff::compare. The HashSet key sets of the source are
embedded as lists of keys with membership tests. -/
def WorkflowDiff.compare (old_wf new_wf : TypedWorkflow) : WorkflowDiff :=
  let name_changed :=
    if old_wf.name ≠ new_wf.name then some (old_wf.name, new_wf.name) else none
  let active_changed :=
    if old_wf.active ≠ new_wf.active then some (old_wf.active, new_wf.active) else none
  let old_nodes := buildNodeMap old_wf.nodes
  let new_nodes := buildNodeMap new_wf.nodes
  let nodes_added := (new_nodes.filter (fun p => !(containsKey p.1 old_nodes))).map Prod.snd
  let nodes_removed := (old_nodes.filter (fun p => !(containsKey p.1 new_nodes))).map Prod.snd
  let nodes_modified := old_nodes.filterMap (fun p =>
    match lookupKey p.1 new_nodes with
    | none => none
    | some nn => compare_nodes p.2 nn)
  let old_conn_keys := (old_wf.connections_flat).map connKey
  let new_conn_keys := (new_wf.connections_flat).map connKey
  let connections_added := (new_wf.connections_flat).filter
    (fun c => !(decide (connKey c ∈ old_conn_keys)))
  let connections_removed := (old_wf.connections_flat).filter
    (fun c => !(decide (connKey c ∈ new_conn_keys)))
  WorkflowDiff.mk name_changed active_changed nodes_added nodes_removed nodes_modified
    connections_added connections_removed

/-- Embedding of WorkflowDiff::is_empty. -/
def WorkflowDiff.is_empty (d : WorkflowDiff) : Bool :=
  d.name_changed.isNone && d.active_changed.isNone && d.nodes_added.isEmpty
    && d.nodes_removed.isEmpty && d.nodes_modified.isEmpty
    && d.connections_added.isEmpty && d.connections_removed.isEmpty

lemma containsKey_of_mem {β : Type} : ∀ {m : List (String × β)} {p : String × β},
    p ∈ m → containsKey p.1 m = true := by
  intro m
  induction m with
  | nil =>
    intro p hp
    simp at hp
  | cons q rest ih =>
    intro p hp
    obtain ⟨k2, v2⟩ := q
    by_cases h : k2 = p.1
    · simp [containsKey, lookupKey, h]
    · rcases List.mem_cons.mp hp with heq | hp2
      · exfalso
        apply h
        rw [heq]
      · simp only [containsKey, lookupKey, if_neg h]
        exact ih hp2

lemma lookupKey_of_mem_nodup {β : Type} : ∀ {m : List (String × β)} {p : String × β},
    NodupKeys m → p ∈ m → lookupKey p.1 m = some p.2 := by
  intro m
  induction m with
  | nil =>
    intro p _ hp
    simp at hp
  | cons q rest ih =>
    intro p hk hp
    obtain ⟨k2, v2⟩ := q
    have hk2 : k2 ∉ keysOf rest := by
      simpa [NodupKeys, keysOf] using (List.nodup_cons.mp hk).1
    have hkrest : NodupKeys rest := by
      simpa [NodupKeys, keysOf] using (List.nodup_cons.mp hk).2
    rcases List.mem_cons.mp hp with heq | hp2
    · rw [heq]
      simp [lookupKey]
    · have hne : k2 ≠ p.1 := by
        intro he
        apply hk2
        rw [he]
        exact List.mem_map.mpr ⟨p, hp2, rfl⟩
      simp only [lookupKey, if_neg hne]
      exact ih hkrest hp2

lemma keysOf_insertKey_mem {β : Type} (k : String) (v : β) : ∀ (m : List (String × β))
    (a : String), a ∈ keysOf (insertKey k v m) ↔ a ∈ keysOf m ∨ a = k
  | [], a => by simp [insertKey, keysOf]
  | (k2, v2) :: rest, a => by
      by_cases h : k2 = k
      · subst h
        have he : insertKey k2 v ((k2, v2) :: rest) = (k2, v) :: rest := by
          simp [insertKey]
        rw [he]
        simp only [keysOf, List.map_cons, List.mem_cons]
        tauto
      · simp only [insertKey, if_neg h, keysOf, List.map_cons, List.mem_cons]
        have hrec := keysOf_insertKey_mem k v rest a
        simp only [keysOf] at hrec
        rw [hrec]
        tauto

lemma nodupKeys_insertKey {β : Type} (k : String) (v : β) : ∀ m : List (String × β),
    NodupKeys m → NodupKeys (insertKey k v m)
  | [], _ => by simp [insertKey, NodupKeys, keysOf]
  | (k2, v2) :: rest, hk => by
      have h1 : k2 ∉ keysOf rest := by
        simpa [NodupKeys, keysOf] using (List.nodup_cons.mp hk).1
      have h2 : NodupKeys rest := by
        simpa [NodupKeys, keysOf] using (List.nodup_cons.mp hk).2
      by_cases h : k2 = k
      · subst h
        have he : insertKey k2 v ((k2, v2) :: rest) = (k2, v) :: rest := by
          simp [insertKey]
        rw [he]
        simp only [NodupKeys, keysOf, List.map_cons]
        apply List.nodup_cons.mpr
        refine ⟨?_, ?_⟩
        · simpa [keysOf] using h1
        · simpa [NodupKeys, keysOf] using h2
      · simp only [insertKey, if_neg h, NodupKeys, keysOf, List.map_cons]
        apply List.nodup_cons.mpr
        constructor
        · intro hin
          rcases (keysOf_insertKey_mem k v rest k2).mp (by simpa [keysOf] using hin)
            with hmem | heq
          · exact h1 hmem
          · exact h heq
        · have := nodupKeys_insertKey k v rest h2
          simpa [NodupKeys, keysOf] using this

lemma nodupKeys_buildNodeMapAux : ∀ (nodes : List Node) (m : List (String × Node)),
    NodupKeys m → NodupKeys (nodes.foldl (fun m2 n => insertKey n.id n m2) m)
  | [], _, hk => hk
  | n :: rest, m, hk =>
      nodupKeys_buildNodeMapAux rest (insertKey n.id n m) (nodupKeys_insertKey n.id n m hk)

lemma nodupKeys_buildNodeMap (nodes : List Node) : NodupKeys (buildNodeMap nodes) :=
  nodupKeys_buildNodeMapAux nodes [] (by simp [NodupKeys, keysOf])

lemma compare_nodes_self (n : Node) : compare_nodes n n = none := by
  simp [compare_nodes]

/-- C8: the diff of a workflow with itself is empty: no name or active change is
recorded and all added, removed, modified and connection lists are empty. -/
theorem compare_self_is_empty (w : TypedWorkflow) :
    (WorkflowDiff.compare w w).is_empty = true := by
  have hadds : ∀ m : List (String × Node),
      m.filter (fun p => !(containsKey p.1 m)) = [] := by
    intro m
    apply List.filter_eq_nil_iff.mpr
    intro p hp
    simp [containsKey_of_mem hp]
  have hmod : (buildNodeMap w.nodes).filterMap (fun p =>
      match lookupKey p.1 (buildNodeMap w.nodes) with
      | none => none
      | some nn => compare_nodes p.2 nn) = [] := by
    apply List.filterMap_eq_nil_iff.mpr
    intro p hp
    rw [lookupKey_of_mem_nodup (nodupKeys_buildNodeMap w.nodes) hp]
    exact compare_nodes_self p.2
  have hconn : ∀ l : List Connection,
      l.filter (fun c => !(decide (connKey c ∈ l.map connKey))) = [] := by
    intro l
    apply List.filter_eq_nil_iff.mpr
    intro c hc
    simp [List.mem_map.mpr ⟨c, hc, rfl⟩]
  simp only [WorkflowDiff.compare, WorkflowDiff.is_empty]
  simp [hadds, hmod, hconn]
  all_goals
    intro a ha
    exact ⟨a, ha, rfl⟩

end N8n
